import Mathlib

/-!
Verification of the SteamNoodles feedback-response agent
(`agents/feedback_response_agent.py`).

The pure pipeline logic is embedded shallowly:
* `detect_aspects` — keyword scoring over the fixed aspect table, stable
  descending sort, truncation to `max_aspects`, sentinel substitution;
* `is_strong_negative` — strong-negative lexicon substring test;
* `build_template_reply` — three-way template on the sentiment label;
* `maybe_paraphrase` — pass-through or marker-based extraction of the
  generated continuation.

The two external model handles (sentiment classifier, text generator) are
opaque capabilities in the program; here the generator is a function
parameter `gen : String → String` and the classifier output is the
`SentimentResult` value fed to `build_template_reply`.

Python `str` operations are modelled on the character list `String.data`:
`s.lower()` as a characterwise `Char.toLower` map (faithful on the ASCII
range, which covers every keyword and lexicon term of the program), and
`needle in hay` as contiguous-subsequence containment.
-/

namespace SteamNoodles

/-- Python `str.lower()`, characterwise. -/
def lower (s : String) : String := ⟨s.data.map Char.toLower⟩

/-- Python `needle in hay` on strings: `needle` occurs contiguously in the
character list, tested position by position. -/
def containsSeq (needle : List Char) : List Char → Bool
  | [] => needle.isEmpty
  | c :: rest => needle.isPrefixOf (c :: rest) || containsSeq needle rest

/-- `needle` occurs as a substring of `hay` (Python `needle in hay`). -/
def containsSub (hay needle : String) : Bool := containsSeq needle.data hay.data

/-- `ASPECT_KEYWORDS`, in the insertion order of the Python dict (Python
dicts preserve insertion order, and the source iterates `.items()` in that
order). -/
def ASPECT_KEYWORDS : List (String × List String) :=
  [("food", ["food", "taste", "noodle", "soup", "broth", "dish", "meal", "menu",
             "flavor", "fresh", "cold", "hot"]),
   ("service", ["service", "staff", "waiter", "server", "slow", "rude",
                "friendly", "attentive"]),
   ("ambiance", ["ambience", "atmosphere", "music", "noise", "crowd", "clean",
                 "dirty", "decor", "lighting", "seat"]),
   ("price", ["price", "cost", "expensive", "cheap", "value", "overpriced", "bill"]),
   ("delivery", ["delivery", "takeaway", "pickup", "packaging"])]

/-- `NEG_STRONG_TERMS`. -/
def NEG_STRONG_TERMS : List String :=
  ["terrible", "awful", "horrible", "worst", "disgusting", "refund",
   "complaint", "unacceptable"]

/-- `score = sum(1 for kw in kws if kw in text_l)`: the number of keywords
of the category that occur in the (already lowercased) text. -/
def aspectScore (text_l : String) (kws : List String) : Nat :=
  kws.countP (fun kw => containsSub text_l kw)

/-- The `hits` list of `detect_aspects`: `(aspect, score)` for each aspect
of `ASPECT_KEYWORDS`, in table order, keeping only positive scores. -/
def aspectHits (text : String) : List (String × Nat) :=
  ASPECT_KEYWORDS.filterMap fun p =>
    let score := aspectScore (lower text) p.2
    if score > 0 then some (p.1, score) else none

/-- One step of a stable descending insertion sort on the score component:
`x` goes after every earlier element whose score is `≥ x`'s. -/
def insertDesc (x : String × Nat) : List (String × Nat) → List (String × Nat)
  | [] => [x]
  | y :: ys => if y.2 < x.2 then x :: y :: ys else y :: insertDesc x ys

/-- `hits.sort(key=lambda x: x[1], reverse=True)`: Python's `list.sort` is
stable, so equal scores keep their original relative order; a left-to-right
stable insertion sort computes the same list. -/
def sortHitsDesc (l : List (String × Nat)) : List (String × Nat) :=
  l.foldl (fun acc x => insertDesc x acc) []

/-- `detect_aspects(text, max_aspects)`. -/
def detect_aspects (text : String) (max_aspects : Nat) : List String :=
  let hits := sortHitsDesc (aspectHits text)
  let aspects := (hits.take max_aspects).map Prod.fst
  if aspects.isEmpty then ["no specific aspect"] else aspects

/-- `is_strong_negative(text)`. -/
def is_strong_negative (text : String) : Bool :=
  NEG_STRONG_TERMS.any (fun term => containsSub (lower text) term)

/-- `SentimentResult`. The Python `confidence` is a float the reply builder
never computes with (it is only printed by the shell); it is carried here
as a rational. -/
structure SentimentResult where
  label : String
  confidence : Rat

/-- `build_template_reply(review, sentiment, aspects, customer_name)`.
The Python truthiness test `if customer_name` is false for both `None` and
the empty string. -/
def build_template_reply (review : String) (sentiment : SentimentResult)
    (aspects : List String) (customer_name : Option String) : String :=
  let name_prefix :=
    match customer_name with
    | some n => if n = "" then "Hi there," else "Hi " ++ n ++ ","
    | none => "Hi there,"
  let aspect_str := String.intercalate ", " aspects
  let bc : String × String :=
    if sentiment.label = "positive" then
      (" thank you for the wonderful feedback! We're thrilled that you enjoyed the " ++
         aspect_str ++ ". Your kind words mean a lot to our team.",
       "Warm thanks, SteamNoodles Team")
    else if sentiment.label = "neutral" then
      (" thanks for sharing your thoughts. We will keep your notes about the " ++
         aspect_str ++ " in mind as we improve.",
       "Kind regards, SteamNoodles Team")
    else
      let apology := if !is_strong_negative review then "We're sorry" else "We’re truly sorry"
      (" " ++ apology ++ " that your experience with the " ++ aspect_str ++
         " didn't meet expectations. Your feedback helps us improve.",
       "Sincerely, SteamNoodles Support")
  name_prefix ++ bc.1 ++ "\n\n" ++ bc.2

/-- The fixed instruction prompt of `maybe_paraphrase`. -/
def mkPrompt (reply : String) : String :=
  "Paraphrase politely and concisely (2 sentences max). Original: " ++ reply ++
    "\nParaphrase:"

/-- The characters after the first occurrence of `needle`, if `needle`
occurs (`s.split(needle, 1)[1]` when the separator is present). -/
def splitOnceAfter (needle : List Char) : List Char → Option (List Char)
  | [] => none
  | c :: rest =>
    if needle.isPrefixOf (c :: rest) then some ((c :: rest).drop needle.length)
    else splitOnceAfter needle rest

/-- Python `str.strip()`: drop whitespace from both ends. -/
def trimChars (l : List Char) : List Char :=
  ((l.dropWhile Char.isWhitespace).reverse.dropWhile Char.isWhitespace).reverse

/-- `out.split("Paraphrase:", 1)[-1].strip()`: the text after the first
`"Paraphrase:"` marker — the whole of `out` when the marker is absent,
since `split` then returns the one-element list `[out]` — stripped. -/
def extractParaphrase (generated : String) : String :=
  match splitOnceAfter "Paraphrase:".data generated.data with
  | some rest => ⟨trimChars rest⟩
  | none => ⟨trimChars generated.data⟩

/-- `maybe_paraphrase(reply, enable_generation)`, the text-generation
capability (`get_gen_pipe()` plus the pipeline call, prompt to
`generated_text`) abstracted as `gen`. -/
def maybe_paraphrase (gen : String → String) (reply : String)
    (enable_generation : Bool) : String :=
  if !enable_generation then reply
  else extractParaphrase (gen (mkPrompt reply))

/-- Spec §4.4: the salutation — `"Hi {name},"` for a non-empty
`customer_name`, else `"Hi there,"`. -/
def spec_salutation (customer_name : Option String) : String :=
  match customer_name with
  | some n => if n = "" then "Hi there," else "Hi " ++ n ++ ","
  | none => "Hi there,"

/-- Spec §4.4: the aspect phrase — the aspects joined with `", "` in the
order given. -/
def spec_aspect_phrase (aspects : List String) : String :=
  String.intercalate ", " aspects

/-- Spec §4.4: the label-selected body, with the aspect phrase inserted. -/
def spec_body (review : String) (label : String) (aspects : List String) : String :=
  if label = "positive" then
    " thank you for the wonderful feedback! We're thrilled that you enjoyed the " ++
      spec_aspect_phrase aspects ++ ". Your kind words mean a lot to our team."
  else if label = "neutral" then
    " thanks for sharing your thoughts. We will keep your notes about the " ++
      spec_aspect_phrase aspects ++ " in mind as we improve."
  else
    " " ++ (if !is_strong_negative review then "We're sorry" else "We’re truly sorry") ++
      " that your experience with the " ++ spec_aspect_phrase aspects ++
      " didn't meet expectations. Your feedback helps us improve."

/-- Spec §4.4: the label-selected closing signature. -/
def spec_closing (label : String) : String :=
  if label = "positive" then "Warm thanks, SteamNoodles Team"
  else if label = "neutral" then "Kind regards, SteamNoodles Team"
  else "Sincerely, SteamNoodles Support"

/-- The whole negative-branch reply, as a function of the severity flag
alone (besides aspects and name): used to state that the severity flag is
the only channel through which the review text reaches the output. -/
def negative_reply (severe : Bool) (aspects : List String)
    (customer_name : Option String) : String :=
  spec_salutation customer_name ++
    (" " ++ (if severe then "We’re truly sorry" else "We're sorry") ++
      " that your experience with the " ++ spec_aspect_phrase aspects ++
      " didn't meet expectations. Your feedback helps us improve.") ++
    "\n\n" ++ "Sincerely, SteamNoodles Support"

/-- The position of an aspect name in the fixed enumeration order of the
aspect table (5 for a name not in the table). -/
def aspectIdx (a : String) : Nat :=
  (ASPECT_KEYWORDS.map Prod.fst).findIdx (fun b => b = a)

/-- The hit count of a named category on a text: the category's keyword
list is looked up in the table and scored on the lowercased text. -/
def scoreOf (text : String) (a : String) : Nat :=
  match ASPECT_KEYWORDS.lookup a with
  | some kws => aspectScore (lower text) kws
  | none => 0

/-! ### Substring containment -/

lemma containsSeq_iff (needle hay : List Char) :
    containsSeq needle hay = true ↔ List.IsInfix needle hay := by
  induction hay with
  | nil =>
    simp only [containsSeq, List.isEmpty_iff]
    constructor
    · rintro rfl; exact ⟨[], [], rfl⟩
    · rintro ⟨s, t, h⟩
      rcases List.append_eq_nil.1 h with ⟨h1, h2⟩
      exact (List.append_eq_nil.1 h1).2
  | cons c rest ih =>
    simp only [containsSeq, Bool.or_eq_true, ih]
    constructor
    · rintro (hpre | hinf)
      · rcases List.isPrefixOf_iff_prefix.1 hpre with ⟨t, ht⟩
        exact ⟨[], t, by simpa using ht⟩
      · rcases hinf with ⟨s, t, h⟩
        exact ⟨c :: s, t, by simp only [List.cons_append, h]⟩
    · rintro ⟨s, t, h⟩
      cases s with
      | nil => exact Or.inl (List.isPrefixOf_iff_prefix.2 ⟨t, by simpa using h⟩)
      | cons a s' =>
        injection h with h1 h2
        exact Or.inr ⟨s', t, h2⟩

lemma containsSub_spec (hay needle : String) :
    containsSub hay needle = true ↔ List.IsInfix needle.data hay.data :=
  containsSeq_iff needle.data hay.data

/-! ### The stable descending sort -/

/-- The strict order realised by the ranked hit list: higher score first,
ties resolved by the position in the fixed enumeration order. -/
def rankRel (x y : String × Nat) : Prop :=
  y.2 < x.2 ∨ (x.2 = y.2 ∧ aspectIdx x.1 < aspectIdx y.1)

lemma rankRel_score {x y : String × Nat} (h : rankRel x y) : y.2 ≤ x.2 := by
  rcases h with h | ⟨h, _⟩
  · exact Nat.le_of_lt h
  · exact Nat.le_of_eq h.symm

lemma mem_insertDesc {x z : String × Nat} {l : List (String × Nat)} :
    z ∈ insertDesc x l ↔ z = x ∨ z ∈ l := by
  induction l with
  | nil => simp [insertDesc]
  | cons y ys ih =>
    by_cases h : y.2 < x.2 <;> simp [insertDesc, h, ih] <;> tauto

lemma insertDesc_pairwise {x : String × Nat} {l : List (String × Nat)}
    (hl : l.Pairwise rankRel)
    (hx : ∀ y ∈ l, aspectIdx y.1 < aspectIdx x.1) :
    (insertDesc x l).Pairwise rankRel := by
  induction l with
  | nil => simp [insertDesc]
  | cons y ys ih =>
    rcases List.pairwise_cons.1 hl with ⟨hy, hys⟩
    by_cases h : y.2 < x.2
    · simp only [insertDesc, if_pos h]
      refine List.pairwise_cons.2 ⟨?_, hl⟩
      intro z hz
      rcases List.mem_cons.1 hz with rfl | hz'
      · exact Or.inl h
      · exact Or.inl (Nat.lt_of_le_of_lt (rankRel_score (hy z hz')) h)
    · simp only [insertDesc, if_neg h]
      refine List.pairwise_cons.2
        ⟨?_, ih hys (fun z hz => hx z (List.mem_cons_of_mem _ hz))⟩
      intro z hz
      rcases mem_insertDesc.1 hz with rfl | hz'
      · rcases Nat.lt_or_eq_of_le (Nat.le_of_not_lt h) with hlt | heq
        · exact Or.inl hlt
        · exact Or.inr ⟨heq.symm, hx y (List.mem_cons_self _ _)⟩
      · exact hy z hz'

lemma foldl_insertDesc_pairwise (l : List (String × Nat)) :
    ∀ acc : List (String × Nat), acc.Pairwise rankRel →
      (∀ y ∈ acc, ∀ x ∈ l, aspectIdx y.1 < aspectIdx x.1) →
      l.Pairwise (fun x y => aspectIdx x.1 < aspectIdx y.1) →
      (l.foldl (fun acc x => insertDesc x acc) acc).Pairwise rankRel := by
  induction l with
  | nil => intro acc h _ _; simpa using h
  | cons x xs ih =>
    intro acc hacc hcross hl
    rcases List.pairwise_cons.1 hl with ⟨hx, hxs⟩
    simp only [List.foldl_cons]
    apply ih
    · exact insertDesc_pairwise hacc
        (fun y hy => hcross y hy x (List.mem_cons_self _ _))
    · intro y hy x' hx'
      rcases mem_insertDesc.1 hy with rfl | hy'
      · exact hx x' hx'
      · exact hcross y hy' x' (List.mem_cons_of_mem _ hx')
    · exact hxs

lemma mem_foldl_insertDesc (l : List (String × Nat)) :
    ∀ acc z, (z ∈ l.foldl (fun acc x => insertDesc x acc) acc ↔ z ∈ acc ∨ z ∈ l) := by
  induction l with
  | nil => simp
  | cons x xs ih =>
    intro acc z
    simp only [List.foldl_cons, ih, mem_insertDesc, List.mem_cons]
    tauto

lemma mem_sortHitsDesc {l : List (String × Nat)} {z : String × Nat} :
    z ∈ sortHitsDesc l ↔ z ∈ l := by
  simpa using mem_foldl_insertDesc l [] z

/-! ### The hit list -/

lemma aspectHits_mem {text : String} {z : String × Nat}
    (hz : z ∈ aspectHits text) :
    z.2 = scoreOf text z.1 ∧ 0 < z.2 := by
  rcases List.mem_filterMap.1 hz with ⟨p, hp, hfp⟩
  simp only [ASPECT_KEYWORDS, List.mem_cons, List.not_mem_nil, or_false] at hp
  have hscore : 0 < aspectScore (lower text) p.2 ∧ z = (p.1, aspectScore (lower text) p.2) := by
    by_cases h : aspectScore (lower text) p.2 > 0
    · simp only [h, if_pos] at hfp
      exact ⟨h, (Option.some_inj.1 hfp).symm⟩
    · simp [h] at hfp
  rcases hscore with ⟨hpos, rfl⟩
  rcases hp with rfl | rfl | rfl | rfl | rfl <;> exact ⟨rfl, hpos⟩

lemma aspectHits_fst {text : String} (p : String × List String)
    {z : String × Nat}
    (hfp : (let score := aspectScore (lower text) p.2
            if score > 0 then some (p.1, score) else none) = some z) :
    z.1 = p.1 := by
  by_cases h : aspectScore (lower text) p.2 > 0
  · simp only [h, if_pos] at hfp
    rw [← Option.some_inj.1 hfp]
  · simp [h] at hfp

lemma aspectHits_idx_pairwise (text : String) :
    (aspectHits text).Pairwise (fun x y => aspectIdx x.1 < aspectIdx y.1) := by
  rw [aspectHits, List.pairwise_filterMap]
  have base : ASPECT_KEYWORDS.Pairwise
      (fun p q => aspectIdx p.1 < aspectIdx q.1) := by decide
  refine base.imp_of_mem ?_
  intro p q _ _ h b hb b' hb'
  rw [aspectHits_fst p hb, aspectHits_fst q hb']
  exact h

/-! ### Paraphrase extraction -/

lemma splitOnceAfter_eq_none {needle l : List Char}
    (h : containsSeq needle l = false) : splitOnceAfter needle l = none := by
  induction l with
  | nil => rfl
  | cons c rest ih =>
    simp only [containsSeq, Bool.or_eq_false_iff] at h
    rw [splitOnceAfter, if_neg (by simp [h.1]), ih h.2]

lemma exists_mem_dropWhile {p : Char → Bool} {l : List Char}
    (h : ∃ c ∈ l, ¬ p c = true) : ∃ c ∈ l.dropWhile p, ¬ p c = true := by
  induction l with
  | nil => simpa using h
  | cons a t ih =>
    rcases h with ⟨c, hc, hpc⟩
    by_cases ha : p a = true
    · rw [List.dropWhile_cons, if_pos ha]
      apply ih
      rcases List.mem_cons.1 hc with rfl | hmem
      · exact absurd ha hpc
      · exact ⟨c, hmem, hpc⟩
    · rw [List.dropWhile_cons, if_neg ha]
      exact ⟨c, hc, hpc⟩

lemma trimChars_ne_nil {l : List Char}
    (h : ∃ c ∈ l, ¬ c.isWhitespace = true) : trimChars l ≠ [] := by
  have h1 := exists_mem_dropWhile (p := Char.isWhitespace) h
  have h2 : ∃ c ∈ (l.dropWhile Char.isWhitespace).reverse, ¬ c.isWhitespace = true := by
    rcases h1 with ⟨c, hc, hpc⟩
    exact ⟨c, List.mem_reverse.2 hc, hpc⟩
  have h3 := exists_mem_dropWhile (p := Char.isWhitespace) h2
  rcases h3 with ⟨c, hc, _⟩
  intro hnil
  rw [trimChars, List.reverse_eq_nil_iff] at hnil
  rw [hnil] at hc
  exact (List.not_mem_nil c) hc

/-! ### `detect_aspects` case split -/

lemma detect_aspects_cases (text : String) (m : Nat) :
    detect_aspects text m = ["no specific aspect"] ∨
    detect_aspects text m = ((sortHitsDesc (aspectHits text)).take m).map Prod.fst := by
  simp only [detect_aspects]
  by_cases h : (((sortHitsDesc (aspectHits text)).take m).map Prod.fst).isEmpty = true
  · left; rw [if_pos h]
  · right; rw [if_neg h]

lemma aspectScore_eq_zero {t : String} {kws : List String}
    (h : ∀ kw ∈ kws, containsSub t kw = false) : aspectScore t kws = 0 :=
  List.countP_eq_zero.2 (fun kw hkw => by simp [h kw hkw])

/-! ### Claims about the reply template engine -/

/-- C1: `build_template_reply` returns the salutation (`"Hi {name},"` for a
non-empty customer name, `"Hi there,"` when absent or empty) concatenated
with the label-selected body, a blank line, and the closing signature, the
aspect phrase being the aspects joined with `", "` in order; and for label
`"positive"`, aspects `["food"]`, name `"Alice"`, the reply starts with
`"Hi Alice,"`, contains `"food"`, and ends with the line
`"Warm thanks, SteamNoodles Team"`. -/
theorem claim_C1_reply_structure (review : String) (s : SentimentResult)
    (aspects : List String) (n : Option String) :
    build_template_reply review s aspects n =
      spec_salutation n ++ spec_body review s.label aspects ++ "\n\n" ++
        spec_closing s.label ∧
    "Hi Alice,".data.isPrefixOf
      (build_template_reply "Great!" ⟨"positive", 1⟩ ["food"] (some "Alice")).data = true ∧
    containsSub
      (build_template_reply "Great!" ⟨"positive", 1⟩ ["food"] (some "Alice")) "food" = true ∧
    "\n\nWarm thanks, SteamNoodles Team".data.isSuffixOf
      (build_template_reply "Great!" ⟨"positive", 1⟩ ["food"] (some "Alice")).data = true := by
  refine ⟨?_, by decide, by decide, by decide⟩
  by_cases h1 : s.label = "positive"
  · simp [build_template_reply, spec_salutation, spec_body, spec_closing,
      spec_aspect_phrase, h1]
  · by_cases h2 : s.label = "neutral"
    · simp [build_template_reply, spec_salutation, spec_body, spec_closing,
        spec_aspect_phrase, h1, h2]
    · simp [build_template_reply, spec_salutation, spec_body, spec_closing,
        spec_aspect_phrase, h1, h2]

/-- C5: on label `"negative"` the reply is a function of the severity flag
`is_strong_negative review` alone (besides aspects and name), the plain
`"We're sorry"` when the flag is false and the intensified variant when
true; on labels `"positive"`/`"neutral"` the reply does not depend on the
review text at all, so the severity flag cannot affect it. The spec's
example (negative, severe, aspects `["service"]`, no name) starts with
`"Hi there,"` and uses the intensified, not the plain, variant. -/
theorem claim_C5_severity (review : String) (s : SentimentResult)
    (aspects : List String) (n : Option String) :
    (s.label = "negative" →
      build_template_reply review s aspects n =
        negative_reply (is_strong_negative review) aspects n) ∧
    ((s.label = "positive" ∨ s.label = "neutral") →
      ∀ review2 : String,
        build_template_reply review s aspects n =
          build_template_reply review2 s aspects n) ∧
    ("Hi there,".data.isPrefixOf
        (build_template_reply "this is unacceptable" ⟨"negative", 1⟩ ["service"] none).data = true ∧
     containsSub
        (build_template_reply "this is unacceptable" ⟨"negative", 1⟩ ["service"] none)
        "We’re truly sorry" = true ∧
     containsSub
        (build_template_reply "the soup was cold" ⟨"negative", 1⟩ ["service"] none)
        "We’re truly sorry" = false ∧
     containsSub
        (build_template_reply "the soup was cold" ⟨"negative", 1⟩ ["service"] none)
        "We're sorry" = true) := by
  refine ⟨?_, ?_, by decide, by decide, by decide, by decide⟩
  · intro h
    cases hb : is_strong_negative review <;>
      simp [build_template_reply, negative_reply, spec_salutation,
        spec_aspect_phrase, h, hb]
  · rintro (h | h) <;> intro review2 <;> simp [build_template_reply, h]

/-- Witness for C5 at concrete inputs. -/
theorem claim_C5_witness :
    build_template_reply "bad" ⟨"negative", 0⟩ ["food"] none =
      negative_reply (is_strong_negative "bad") ["food"] none ∧
    build_template_reply "a" ⟨"positive", 0⟩ ["food"] none =
      build_template_reply "b" ⟨"positive", 0⟩ ["food"] none :=
  ⟨(claim_C5_severity "bad" ⟨"negative", 0⟩ ["food"] none).1 rfl,
   (claim_C5_severity "a" ⟨"positive", 0⟩ ["food"] none).2.1 (Or.inl rfl) "b"⟩

/-- C6: every sentiment label outside `{"positive", "neutral", "negative"}`
falls through to the negative branch: the reply equals the one produced for
label `"negative"`, and it carries the `"Sincerely, SteamNoodles Support"`
closing. -/
theorem claim_C6_fallthrough (review : String) (label : String) (conf : Rat)
    (aspects : List String) (n : Option String)
    (h1 : label ≠ "positive") (h2 : label ≠ "neutral") (h3 : label ≠ "negative") :
    build_template_reply review ⟨label, conf⟩ aspects n =
      build_template_reply review ⟨"negative", conf⟩ aspects n ∧
    ∃ st : String,
      build_template_reply review ⟨label, conf⟩ aspects n =
        st ++ "Sincerely, SteamNoodles Support" := by
  constructor
  · simp [build_template_reply, h1, h2]
  · simp only [build_template_reply, h1, h2]
    simp [h1, h2]
    exact ⟨_, rfl⟩

/-- Witness for C6 at the unrecognized label `"surprise"`. -/
theorem claim_C6_witness :
    build_template_reply "x" ⟨"surprise", 0⟩ ["food"] none =
      build_template_reply "x" ⟨"negative", 0⟩ ["food"] none ∧
    ∃ st : String,
      build_template_reply "x" ⟨"surprise", 0⟩ ["food"] none =
        st ++ "Sincerely, SteamNoodles Support" :=
  claim_C6_fallthrough "x" "surprise" 0 ["food"] none (by decide) (by decide)
    (by decide)

/-- C7: `is_strong_negative` is true exactly when some term of the fixed
strong-negative lexicon occurs as a substring of the lowercased text; it is
false on `"the soup was cold"` and true on `"this is unacceptable"`. -/
theorem claim_C7_strong_negative (text : String) :
    (is_strong_negative text = true ↔
      ∃ term ∈ NEG_STRONG_TERMS, List.IsInfix term.data (lower text).data) ∧
    is_strong_negative "the soup was cold" = false ∧
    is_strong_negative "this is unacceptable" = true := by
  refine ⟨?_, by decide, by decide⟩
  rw [is_strong_negative, List.any_eq_true]
  constructor
  · rintro ⟨x, hx, hpx⟩
    exact ⟨x, hx, (containsSub_spec _ _).1 hpx⟩
  · rintro ⟨x, hx, hin⟩
    exact ⟨x, hx, (containsSub_spec _ _).2 hin⟩

/-- C8: with generation disabled, `maybe_paraphrase` is the identity on the
draft and the generation capability is never consulted: the result does not
depend on it in any way. -/
theorem claim_C8_passthrough (gen gen2 : String → String) (draft : String) :
    maybe_paraphrase gen draft false = draft ∧
    maybe_paraphrase gen draft false = maybe_paraphrase gen2 draft false :=
  ⟨rfl, rfl⟩

/-- C10: `build_template_reply` reads the sentiment result only through its
label: two results with the same label and different confidences yield the
same reply. -/
theorem claim_C10_confidence_independent (review : String) (label : String)
    (c1 c2 : Rat) (aspects : List String) (n : Option String) :
    build_template_reply review ⟨label, c1⟩ aspects n =
      build_template_reply review ⟨label, c2⟩ aspects n :=
  rfl

/-! ### Claims about the aspect detector -/

/-- C2 (amended: max_aspects ≥ 1; with max_aspects = 0 the sentinel still
makes the result a one-element list): the list returned by
`detect_aspects` has length at most `max_aspects` and is sorted by hit
count in descending order, ties broken by the fixed enumeration order of
the aspect table (stable sort, first-encountered-wins). -/
theorem claim_C2_ranking (text : String) (m : Nat) (hm : 1 ≤ m) :
    (detect_aspects text m).length ≤ m ∧
    (detect_aspects text m).Pairwise (fun a b =>
      scoreOf text b < scoreOf text a ∨
        (scoreOf text a = scoreOf text b ∧ aspectIdx a < aspectIdx b)) := by
  rcases detect_aspects_cases text m with h | h
  · rw [h]
    exact ⟨hm, by simp⟩
  · rw [h]
    constructor
    · rw [List.length_map]
      exact List.length_take_le m _
    · have hp : (sortHitsDesc (aspectHits text)).Pairwise rankRel := by
        rw [sortHitsDesc]
        exact foldl_insertDesc_pairwise _ [] List.Pairwise.nil (by simp)
          (aspectHits_idx_pairwise text)
      have hp2 : ((sortHitsDesc (aspectHits text)).take m).Pairwise rankRel :=
        List.Pairwise.sublist (List.take_sublist m _) hp
      rw [List.pairwise_map]
      refine List.Pairwise.imp_of_mem ?_ hp2
      intro x y hx hy hr
      have hxm := aspectHits_mem (mem_sortHitsDesc.1 (List.take_subset m _ hx))
      have hym := aspectHits_mem (mem_sortHitsDesc.1 (List.take_subset m _ hy))
      rcases hr with hlt | ⟨heq, hidx⟩
      · exact Or.inl (by rw [← hxm.1, ← hym.1]; exact hlt)
      · exact Or.inr ⟨by rw [← hxm.1, ← hym.1]; exact heq, hidx⟩

/-- C2 counterexample: with `max_aspects = 0`, the empty truncation is
replaced by the sentinel, so the result has length 1, not ≤ 0. -/
theorem claim_C2_cex : ¬ ((detect_aspects "food" 0).length ≤ 0) := by decide

/-- Witness for C2 at a concrete input. -/
theorem claim_C2_witness :
    (detect_aspects "the noodle soup was cold and the staff was slow" 2).length ≤ 2 ∧
    (detect_aspects "the noodle soup was cold and the staff was slow" 2).Pairwise
      (fun a b =>
        scoreOf "the noodle soup was cold and the staff was slow" b <
            scoreOf "the noodle soup was cold and the staff was slow" a ∨
          (scoreOf "the noodle soup was cold and the staff was slow" a =
              scoreOf "the noodle soup was cold and the staff was slow" b ∧
            aspectIdx a < aspectIdx b)) :=
  claim_C2_ranking "the noodle soup was cold and the staff was slow" 2 (by decide)

/-- C3: when no keyword of any category occurs as a substring of the
lowercased text, `detect_aspects` returns exactly
`["no specific aspect"]`; and its result is never the empty list. -/
theorem claim_C3_sentinel (text : String) (m : Nat) :
    ((∀ p ∈ ASPECT_KEYWORDS, ∀ kw ∈ p.2, ¬ List.IsInfix kw.data (lower text).data) →
      detect_aspects text m = ["no specific aspect"]) ∧
    detect_aspects text m ≠ [] := by
  constructor
  · intro h
    have hz : ∀ p ∈ ASPECT_KEYWORDS, aspectScore (lower text) p.2 = 0 := by
      intro p hp
      apply aspectScore_eq_zero
      intro kw hkw
      cases hc : containsSub (lower text) kw
      · rfl
      · exact absurd ((containsSub_spec _ _).1 hc) (h p hp kw hkw)
    have hhits : aspectHits text = [] := by
      rw [aspectHits]
      apply List.filterMap_eq_nil_iff.2
      intro p hp
      simp [hz p hp]
    simp [detect_aspects, hhits, sortHitsDesc]
  · simp only [detect_aspects]
    split
    · simp
    · next hf =>
      intro hnil
      rw [hnil] at hf
      exact hf rfl

/-- Witness for C3 at a keyword-free text. -/
theorem claim_C3_witness :
    detect_aspects "zzz" 2 = ["no specific aspect"] ∧ detect_aspects "zzz" 2 ≠ [] :=
  ⟨(claim_C3_sentinel "zzz" 2).1 (by simp only [← containsSeq_iff]; decide),
   (claim_C3_sentinel "zzz" 2).2⟩

/-- C4: the hit count of a category is the number of its keywords occurring
as substrings of the lowercased text (each keyword contributing at most 1,
so the count never exceeds the keyword list's length); the ranking keeps no
zero-count category (every returned name is the sentinel or has positive
score); and a text whose only hits are in the food category yields exactly
`["food"]`. -/
theorem claim_C4_hit_counts (text : String) :
    (∀ p ∈ ASPECT_KEYWORDS,
      scoreOf text p.1 = p.2.countP (fun kw => containsSub (lower text) kw) ∧
      scoreOf text p.1 ≤ p.2.length) ∧
    (∀ a ∈ detect_aspects text 2, a = "no specific aspect" ∨ 0 < scoreOf text a) ∧
    (0 < scoreOf text "food" →
      (∀ a ∈ ASPECT_KEYWORDS.map Prod.fst, a ≠ "food" → scoreOf text a = 0) →
      detect_aspects text 2 = ["food"]) := by
  refine ⟨?_, ?_, ?_⟩
  · intro p hp
    simp only [ASPECT_KEYWORDS, List.mem_cons, List.not_mem_nil, or_false] at hp
    rcases hp with rfl | rfl | rfl | rfl | rfl <;>
      exact ⟨rfl, List.countP_le_length _⟩
  · intro a ha
    rcases detect_aspects_cases text 2 with h | h
    · rw [h] at ha
      exact Or.inl (by simpa using ha)
    · rw [h] at ha
      rcases List.mem_map.1 ha with ⟨z, hz, rfl⟩
      have hzm := aspectHits_mem (mem_sortHitsDesc.1 (List.take_subset 2 _ hz))
      exact Or.inr (hzm.1 ▸ hzm.2)
  · intro hf h0
    have key : ∀ p ∈ ASPECT_KEYWORDS,
        (let score := aspectScore (lower text) p.2
         if score > 0 then some (p.1, score) else none) =
          (if 0 < scoreOf text p.1 then some (p.1, scoreOf text p.1) else none) := by
      intro p hp
      simp only [ASPECT_KEYWORDS, List.mem_cons, List.not_mem_nil, or_false] at hp
      rcases hp with rfl | rfl | rfl | rfl | rfl <;> rfl
    have hlist : aspectHits text = [("food", scoreOf text "food")] := by
      rw [aspectHits, List.filterMap_congr key]
      simp only [ASPECT_KEYWORDS, List.filterMap_cons]
      rw [h0 "service" (by decide) (by decide), h0 "ambiance" (by decide) (by decide),
        h0 "price" (by decide) (by decide), h0 "delivery" (by decide) (by decide)]
      simp [hf]
    simp [detect_aspects, hlist, sortHitsDesc, insertDesc]

/-- Witness for C4 at the food-only text `"broth"`. -/
theorem claim_C4_witness :
    (0 < scoreOf "broth" "food") ∧ detect_aspects "broth" 2 = ["food"] :=
  ⟨by decide, (claim_C4_hit_counts "broth").2.2 (by decide) (by decide)⟩

/-! ### Claims about the paraphrase step -/

/-- C9 counterexample: when the generation capability returns the empty
string (in which the marker is absent), the extraction yields the empty
reply, not a non-empty string. -/
theorem claim_C9_cex :
    maybe_paraphrase (fun _ => "") "Hi there, thanks.\n\nTeam" true = "" := rfl

/-- C9 (amended): the extraction step never raises (it is a total string
function); when the `"Paraphrase:"` marker is absent from the generated
output it falls back to the whole generated continuation, stripped of
surrounding whitespace — which is non-empty whenever the generated output
contains any non-whitespace character. -/
theorem claim_C9_extraction (out : String)
    (h : ¬ List.IsInfix "Paraphrase:".data out.data) :
    extractParaphrase out = ⟨trimChars out.data⟩ ∧
    ((∃ c ∈ out.data, ¬ c.isWhitespace = true) → extractParaphrase out ≠ "") := by
  have hfalse : containsSeq "Paraphrase:".data out.data = false := by
    cases hc : containsSeq "Paraphrase:".data out.data
    · rfl
    · exact absurd ((containsSeq_iff _ _).1 hc) h
  have hnone := splitOnceAfter_eq_none hfalse
  have heq : extractParaphrase out = ⟨trimChars out.data⟩ := by
    simp only [extractParaphrase, hnone]
  refine ⟨heq, ?_⟩
  intro hex hcontra
  rw [heq] at hcontra
  have hnil : trimChars out.data = [] := by
    have := congrArg String.data hcontra
    simpa using this
  exact trimChars_ne_nil hex hnil

/-- Witness for C9 at a marker-free generated output. -/
theorem claim_C9_witness :
    extractParaphrase "hello world" = ⟨trimChars "hello world".data⟩ ∧
    extractParaphrase "hello world" ≠ "" :=
  ⟨(claim_C9_extraction "hello world" (by rw [← containsSeq_iff]; decide)).1,
   (claim_C9_extraction "hello world" (by rw [← containsSeq_iff]; decide)).2
     (by decide)⟩

end SteamNoodles
